import Mathlib

/-!
Verification of the document-ai-processor core: key-value indexing
(`KeyValueIndexService`), the deterministic mock extractor (`MockProvider`),
the PDF text-extraction pipeline (`DocumentProcessor.extractFromPDF`) and the
chat orchestrator (`ChatService.processQuery`), shallowly embedded in Lean.

Strings are modelled as `List Char` (the inputs of interest are ASCII, so
JavaScript's UTF-16 code-unit semantics coincide with code points).
-/

namespace DocAI

/-- JavaScript string truthiness/whitespace helpers.
`\s` in a JS regex and `String.prototype.trim` both treat these ASCII
characters as whitespace (the Unicode-only space characters do not occur in
the inputs considered here). -/
def isJsWs (c : Char) : Bool :=
  c == ' ' || c == '\t' || c == '\n' || c == '\r' || c == '\x0b' || c == '\x0c'

/-- JS `String.prototype.trim`. -/
def jsTrim (s : List Char) : List Char :=
  ((s.dropWhile isJsWs).reverse.dropWhile isJsWs).reverse

/-- JS regex `\w` character class: `[A-Za-z0-9_]`. -/
def isWordChar (c : Char) : Bool :=
  ('a' ≤ c && c ≤ 'z') || ('A' ≤ c && c ≤ 'Z') || ('0' ≤ c && c ≤ '9') || c == '_'

/-- Step `replace(/\s+/g, '_')`: every maximal run of whitespace becomes one `_`.
The flag records whether we are inside a whitespace run. -/
def collapseWsAux : Bool → List Char → List Char
  | _, [] => []
  | inRun, c :: cs =>
    if isJsWs c then
      if inRun then collapseWsAux true cs else '_' :: collapseWsAux true cs
    else c :: collapseWsAux false cs

def collapseWsToUnderscore (s : List Char) : List Char :=
  collapseWsAux false s

/-- Embeds `KeyValueIndexService.normalizeKey`:
`key.toLowerCase().trim().replace(/[^\w\s]/g, '').replace(/\s+/g, '_')`.
Characters outside `\w` and `\s` are removed; whitespace runs then collapse
to a single underscore. -/
def normalizeKey (key : List Char) : List Char :=
  collapseWsToUnderscore
    ((jsTrim (key.map Char.toLower)).filter (fun c => isWordChar c || isJsWs c))

/-- JavaScript values as they occur in extracted key-value pairs.  Numbers
come from JSON and are modelled as integers; `Date` instances, arrays and
plain objects compare by reference both under `===` and as `Set` members,
modelled by an identity token. -/
inductive JSValue where
  | vnull
  | vundefined
  | vstr (s : List Char)
  | vnum (n : Int)
  | vbool (b : Bool)
  | vdate (ref : Nat)
  | varr (ref : Nat)
  | vobj (ref : Nat)
deriving DecidableEq

/-- The skip test of `indexKeyValuePairs`:
`value === null || value === undefined || value === ''`. -/
def isEmptyValue (v : JSValue) : Bool :=
  decide (v = .vnull) || decide (v = .vundefined) || decide (v = .vstr [])

/-- Embeds `KeyValueIndexService.getValueType` (`typeof` dispatch; `Date` and
`Array` are tested with `instanceof`/`Array.isArray`; `typeof null` is
`'object'`; `undefined` falls through to the final `return 'string'`). -/
def getValueType : JSValue → List Char
  | .vstr _ => "string".data
  | .vnum _ => "number".data
  | .vbool _ => "boolean".data
  | .vdate _ => "date".data
  | .varr _ => "array".data
  | .vnull => "object".data
  | .vobj _ => "object".data
  | .vundefined => "string".data

/-- One `{key, value}` element of the array form of `keyValuePairs`. -/
structure KVPair where
  key : List Char
  value : JSValue
deriving DecidableEq

/-- The filter applied while converting the array form to an object:
`pair.key && pair.value !== null && pair.value !== undefined && pair.value !== ''`
(a string key is truthy exactly when non-empty). -/
def keepPair (p : KVPair) : Bool :=
  !p.key.isEmpty && !isEmptyValue p.value

/-- Property assignment on a JS plain object, modelled as an
insertion-ordered association list: assigning an existing key updates its
value in place, a new key is appended.  (JS enumerates integer-like keys
first; no property proved here depends on enumeration order, only on the
set of keys.) -/
def objSet (m : List (List Char × JSValue)) (k : List Char) (v : JSValue) :
    List (List Char × JSValue) :=
  if m.any (fun p => decide (p.1 = k)) then
    m.map (fun p => if p.1 = k then (k, v) else p)
  else m ++ [(k, v)]

/-- Lines 25–32 of `indexKeyValuePairs`: fold the array form into a plain
object, dropping pairs with falsy key or null/undefined/empty value; a later
pair with an already-seen key overwrites the earlier value. -/
def pairsToObject (kvs : List KVPair) : List (List Char × JSValue) :=
  kvs.foldl (fun m p => if keepPair p then objSet m p.key p.value else m) []

/-- One stored row of the `KeyValueIndex` collection. -/
structure IndexEntry where
  documentId : List Char
  filename : List Char
  originalFilename : List Char
  key : List Char
  keyNormalized : List Char
  value : JSValue
  valueType : List Char
  extractedAt : Int
deriving DecidableEq

/-- Embeds `KeyValueIndexService.indexKeyValuePairs` on the array form
`[{key, value}]` (the form every provider produces): the array is folded
into a plain object, then the `for (const [key, value] of Object.entries)`
loop skips empty values once more and builds one `IndexEntry` per remaining
property.  The service returns `indexEntries.length`. -/
def indexKeyValuePairsArray (documentId filename originalFilename : List Char)
    (keyValuePairs : List KVPair) (extractedAt : Int) : List IndexEntry :=
  ((pairsToObject keyValuePairs).filter (fun kv => !isEmptyValue kv.2)).map
    (fun kv =>
      { documentId := documentId
        filename := filename
        originalFilename := originalFilename
        key := kv.1
        keyNormalized := normalizeKey kv.1
        value := kv.2
        valueType := getValueType kv.2
        extractedAt := extractedAt })

/-- The count returned to the caller of `indexKeyValuePairs`. -/
def indexKeyValuePairsCount (documentId filename originalFilename : List Char)
    (keyValuePairs : List KVPair) (extractedAt : Int) : Nat :=
  (indexKeyValuePairsArray documentId filename originalFilename keyValuePairs
    extractedAt).length

/-- JS `[...new Set(l)]`: deduplication keeping the first occurrence. -/
def dedupFirstAux {α : Type} [DecidableEq α] (seen : List α) : List α → List α
  | [] => []
  | x :: xs =>
    if x ∈ seen then dedupFirstAux seen xs else x :: dedupFirstAux (x :: seen) xs

def dedupFirst {α : Type} [DecidableEq α] (l : List α) : List α :=
  dedupFirstAux [] l

/-- One element of `searchByKeyExact`'s `valueFrequency`. -/
structure ValueFrequencyEntry where
  value : JSValue
  count : Nat
  filenames : List (List Char)

/-- The object returned by `searchByKeyExact`. -/
structure ExactSearchResult where
  searchKey : List Char
  results : List IndexEntry
  uniqueValues : List JSValue
  totalDocuments : Nat
  totalResults : Nat
  valueFrequency : List ValueFrequencyEntry

/-- The pure post-processing of `searchByKeyExact`, applied to whatever
list the store query returned. -/
def exactSearchPost (keyName : List Char) (results : List IndexEntry) :
    ExactSearchResult :=
  let uniqueValues := dedupFirst (results.map (·.value))
  { searchKey := keyName
    results := results
    uniqueValues := uniqueValues
    totalDocuments := (dedupFirst (results.map (·.documentId))).length
    totalResults := results.length
    valueFrequency := uniqueValues.map (fun v =>
      let matching := results.filter (fun r => decide (r.value = v))
      { value := v
        count := matching.length
        filenames := dedupFirst (matching.map (·.originalFilename)) }) }

/-- Insertion of one entry into a list already sorted newest-first. -/
def insertDesc (e : IndexEntry) : List IndexEntry → List IndexEntry
  | [] => [e]
  | x :: xs =>
    if x.extractedAt ≤ e.extractedAt then e :: x :: xs else x :: insertDesc e xs

/-- Query step `.sort({ extractedAt: -1 })`: newest-first insertion sort. -/
def sortByExtractedAtDesc : List IndexEntry → List IndexEntry
  | [] => []
  | x :: xs => insertDesc x (sortByExtractedAtDesc xs)

/-- Embeds `KeyValueIndex.find({key: keyName}).sort({extractedAt: -1}).limit(limit)`
over a store modelled as the list of all rows. -/
def findByKeyExact (store : List IndexEntry) (keyName : List Char)
    (limit : Nat) : List IndexEntry :=
  (sortByExtractedAtDesc (store.filter (fun e => decide (e.key = keyName)))).take limit

/-- Embeds `KeyValueIndexService.searchByKeyExact` over a modelled store. -/
def searchByKeyExact (store : List IndexEntry) (keyName : List Char)
    (limit : Nat) : ExactSearchResult :=
  exactSearchPost keyName (findByKeyExact store keyName limit)

def listIsPrefixOf : List Char → List Char → Bool
  | [], _ => true
  | _ :: _, [] => false
  | a :: as, b :: bs => a == b && listIsPrefixOf as bs

/-- Substring containment of `needle` in the second list. -/
def hasSubstr (needle : List Char) : List Char → Bool
  | [] => needle.isEmpty
  | c :: rest => listIsPrefixOf needle (c :: rest) || hasSubstr needle rest

/-- Match `{$regex: pattern, $options: 'i'}` where the pattern is a normalized key
(letters, digits and underscores only, so no regex metacharacters):
case-insensitive substring containment. -/
def regexMatchCI (pattern hay : List Char) : Bool :=
  hasSubstr (pattern.map Char.toLower) (hay.map Char.toLower)

/-- One element of a partial-search document group's `matches`. -/
structure PartialMatch where
  key : List Char
  value : JSValue
  valueType : List Char

/-- One per-document group in `searchByKeyPartial`'s results. -/
structure DocumentGroup where
  documentId : List Char
  filename : List Char
  originalFilename : List Char
  extractedAt : Int
  docMatches : List PartialMatch  -- `matches` in the source (reserved word in Lean)

/-- The object returned by `searchByKeyPartial`. -/
structure PartialSearchResult where
  searchKey : List Char
  results : List DocumentGroup
  totalDocuments : Nat
  totalMatches : Nat

/-- One step of the `results.forEach` grouping loop of `searchByKeyPartial`:
the `documentGroups` object keyed by document id, in insertion order. -/
def addToGroups (groups : List DocumentGroup) (r : IndexEntry) :
    List DocumentGroup :=
  if groups.any (fun g => decide (g.documentId = r.documentId)) then
    groups.map (fun g =>
      if g.documentId = r.documentId then
        { g with docMatches := g.docMatches ++ [⟨r.key, r.value, r.valueType⟩] }
      else g)
  else
    groups ++ [{ documentId := r.documentId
                 filename := r.filename
                 originalFilename := r.originalFilename
                 extractedAt := r.extractedAt
                 docMatches := [⟨r.key, r.value, r.valueType⟩] }]

/-- Embeds `KeyValueIndexService.searchByKeyPartial` over a modelled store. -/
def searchByKeyPartial (store : List IndexEntry) (keyName : List Char)
    (limit : Nat) : PartialSearchResult :=
  let results := (sortByExtractedAtDesc (store.filter
      (fun e => regexMatchCI (normalizeKey keyName) e.keyNormalized))).take limit
  let groups := results.foldl addToGroups []
  { searchKey := keyName
    results := groups
    totalDocuments := groups.length
    totalMatches := results.length }

/-- Embeds `KeyValueIndexService.removeDocumentIndex`:
`KeyValueIndex.deleteMany({ documentId })`; yields the store after deletion
and the `deletedCount` returned to the caller. -/
def removeDocumentIndex (store : List IndexEntry) (documentId : List Char) :
    List IndexEntry × Nat :=
  (store.filter (fun e => !decide (e.documentId = documentId)),
   (store.filter (fun e => decide (e.documentId = documentId))).length)

/-! ### MockProvider.extractKeyValuePairs

The mock extractor's four regexes only use greedy bounded repetition of
single-character classes, sequencing and alternation, so they are embedded
through a small backtracking matcher with JS priority order. -/

/-- A regex fragment: greedy repetition of a single-character class between
`lo` and `hi` times (`hi = none` is unbounded), sequencing, alternation. -/
inductive Pat where
  | cls (p : Char → Bool) (lo : Nat) (hi : Option Nat)
  | seq (a b : Pat)
  | alt (a b : Pat)

/-- Try the continuation `k` after consuming `base + extra` class
characters, then on shorter prefixes down to `base` characters (greedy with
backtracking); the result counts the characters consumed in total. -/
def tryCounts (cs : List Char) (k : List Char → Option Nat) (base : Nat) :
    Nat → Option Nat
  | 0 => (k (cs.drop base)).map (base + ·)
  | e + 1 =>
    match k (cs.drop (base + e + 1)) with
    | some m => some (base + e + 1 + m)
    | none => tryCounts cs k base e

/-- Greedy repetition of class `p` between `lo` and `hi` times at the front
of `cs`, followed by `k`. -/
def matchRep (p : Char → Bool) (lo : Nat) (hi : Option Nat) (cs : List Char)
    (k : List Char → Option Nat) : Option Nat :=
  let run := (cs.takeWhile p).length
  let maxN := match hi with | none => run | some h => min h run
  if maxN < lo then none else tryCounts cs k lo (maxN - lo)

/-- Backtracking matcher: number of characters consumed at the front of
`cs` by `pat` followed by the continuation `k`, exploring alternatives in
JS priority order (longest repetition first, left alternative first). -/
def matchPat : Pat → List Char → (List Char → Option Nat) → Option Nat
  | .cls p lo hi, cs, k => matchRep p lo hi cs k
  | .seq a b, cs, k => matchPat a cs (fun rest => matchPat b rest k)
  | .alt a b, cs, k =>
    match matchPat a cs k with
    | some n => some n
    | none => matchPat b cs k

/-- Length of the match of `pat` anchored at the start of `cs`. -/
def matchAt (pat : Pat) (cs : List Char) : Option Nat :=
  matchPat pat cs (fun _ => some 0)

/-- JS `line.match(re)` for a non-global regex whose group 1 spans the whole
pattern: the leftmost match (earliest start position wins). -/
def findMatch (pat : Pat) : List Char → Option (List Char)
  | [] => (matchAt pat []).map (fun _ => [])
  | c :: rest =>
    match matchAt pat (c :: rest) with
    | some n => some ((c :: rest).take n)
    | none => findMatch pat rest

/-- The minimal number of characters any match of `pat` consumes. -/
def minLen : Pat → Nat
  | .cls _ lo _ => lo
  | .seq a b => minLen a + minLen b
  | .alt a b => min (minLen a) (minLen b)

def isDigitChar (c : Char) : Bool := '0' ≤ c && c ≤ '9'

def isAsciiAlpha (c : Char) : Bool :=
  ('a' ≤ c && c ≤ 'z') || ('A' ≤ c && c ≤ 'Z')

/-- Class `[a-zA-Z0-9._%+-]` -/
def isEmailLocalChar (c : Char) : Bool :=
  isAsciiAlpha c || isDigitChar c || c == '.' || c == '_' || c == '%' ||
    c == '+' || c == '-'

/-- Class `[a-zA-Z0-9.-]` -/
def isEmailDomainChar (c : Char) : Bool :=
  isAsciiAlpha c || isDigitChar c || c == '.' || c == '-'

/-- Class `[-.\s]` -/
def isPhoneSepChar (c : Char) : Bool := c == '-' || c == '.' || isJsWs c

/-- Class `[\d,]` -/
def isAmountChar (c : Char) : Bool := isDigitChar c || c == ','

def litP (c : Char) : Pat := .cls (fun x => x == c) 1 (some 1)

def plusP (p : Char → Bool) : Pat := .cls p 1 none

def starP (p : Char → Bool) : Pat := .cls p 0 none

def optP (p : Char → Bool) : Pat := .cls p 0 (some 1)

def repP (p : Char → Bool) (n : Nat) : Pat := .cls p n (some n)

/-- Regex `/([a-zA-Z0-9._%+-]+@[a-zA-Z0-9.-]+\.[a-zA-Z]{2,})/` -/
def emailPat : Pat :=
  .seq (plusP isEmailLocalChar) (.seq (litP '@')
    (.seq (plusP isEmailDomainChar) (.seq (litP '.') (.cls isAsciiAlpha 2 none))))

/-- Regex `/(\(?\d{3}\)?[-.\s]?\d{3}[-.\s]?\d{4})/` -/
def phonePat : Pat :=
  .seq (optP (fun c => c == '(')) (.seq (repP isDigitChar 3)
    (.seq (optP (fun c => c == ')')) (.seq (optP isPhoneSepChar)
      (.seq (repP isDigitChar 3) (.seq (optP isPhoneSepChar)
        (repP isDigitChar 4))))))

/-- Regex `/(\d{4}-\d{2}-\d{2}|\d{2}\/\d{2}\/\d{4}|\d{1,2}\/\d{1,2}\/\d{2,4})/` -/
def datePat : Pat :=
  .alt
    (.seq (repP isDigitChar 4) (.seq (litP '-')
      (.seq (repP isDigitChar 2) (.seq (litP '-') (repP isDigitChar 2)))))
    (.alt
      (.seq (repP isDigitChar 2) (.seq (litP '/')
        (.seq (repP isDigitChar 2) (.seq (litP '/') (repP isDigitChar 4)))))
      (.seq (.cls isDigitChar 1 (some 2)) (.seq (litP '/')
        (.seq (.cls isDigitChar 1 (some 2)) (.seq (litP '/')
          (.cls isDigitChar 2 (some 4)))))))

/-- Regex `/(\$[\d,]+\.?\d*)/` -/
def amountPat : Pat :=
  .seq (litP '$') (.seq (plusP isAmountChar)
    (.seq (optP (fun c => c == '.')) (starP isDigitChar)))

def splitOnCharAux (sep : Char) : List Char → List Char → List (List Char)
  | [], acc => [acc.reverse]
  | c :: cs, acc =>
    if c == sep then acc.reverse :: splitOnCharAux sep cs []
    else splitOnCharAux sep cs (c :: acc)

/-- JS `s.split(sep)` for a single-character separator (keeps empty pieces,
exactly like JS). -/
def splitOnChar (sep : Char) (l : List Char) : List (List Char) :=
  splitOnCharAux sep l []

/-- JS `parts.join(sep)` for a single-character separator. -/
def joinWith (sep : Char) : List (List Char) → List Char
  | [] => []
  | [x] => x
  | x :: y :: rest => x ++ sep :: joinWith sep (y :: rest)

/-- A `{key, value}` pair produced by the mock provider (both strings). -/
structure MockPair where
  key : List Char
  value : List Char
deriving DecidableEq

/-- The pairs pushed for one line of input, in push order: the colon split
(text before the first colon, trimmed, as key; everything after, trimmed,
as value; both required truthy), then one pair per regex hit with the fixed
keys Email, Phone, Date, Amount. -/
def lineCandidates (line : List Char) : List MockPair :=
  let colonPart : List MockPair :=
    if line.contains ':' then
      match splitOnChar ':' line with
      | [] => []
      | k :: valueParts =>
        let value := jsTrim (joinWith ':' valueParts)
        if !(jsTrim k).isEmpty && !value.isEmpty then [⟨jsTrim k, value⟩]
        else []
    else []
  let regexPart (keyName : List Char) (pat : Pat) : List MockPair :=
    match findMatch pat line with
    | some v => [⟨keyName, v⟩]
    | none => []
  colonPart ++ regexPart "Email".data emailPat ++
    regexPart "Phone".data phonePat ++ regexPart "Date".data datePat ++
    regexPart "Amount".data amountPat

/-- The raw candidate list of `MockProvider.extractKeyValuePairs` before
deduplication and capping: split into lines, drop blank lines, push the
per-line candidates. -/
def rawCandidates (text : List Char) : List MockPair :=
  ((splitOnChar '\n' text).filter (fun line => !(jsTrim line).isEmpty)).flatMap
    lineCandidates

/-- Embeds `MockProvider.extractKeyValuePairs`: the raw candidates, deduplicated
by exact `(key, value)` keeping first occurrences
(`index === self.findIndex(...)`), then capped with `.slice(0, 20)`. -/
def mockExtractKeyValuePairs (text : List Char) : List MockPair :=
  (dedupFirst (rawCandidates text)).take 20

/-! ### DocumentProcessor.extractFromPDF -/

/-- The `processingStep` tags set by `DocumentProcessor` on thrown errors. -/
inductive ProcessingStep where
  | fileTypeCheck
  | pdfTextExtraction
  | pdfImageConversionUnavailable
  | pdfOcrFallback
  | pdfCompleteFailure
deriving DecidableEq

/-- A thrown JS `Error` as used by `DocumentProcessor`: its message and its
(optional) `processingStep` tag. -/
structure JsError where
  message : List Char
  step : Option ProcessingStep
deriving DecidableEq

/-- The message of the error built in `extractFromScannedPDF` (the source
joins the lines with the two-character sequence `\\n`, i.e. a literal
backslash followed by `n`, since the join separator is written `'\\n'`). -/
def scannedPdfMessage : List Char :=
  ("This PDF appears to contain scanned images or forms that require OCR processing.\\nCurrent options:\\n1. Convert the PDF to JPG/PNG format and upload the image instead\\n2. Use a PDF with selectable text content\\n3. For automatic PDF processing, install ImageMagick or GraphicsMagick on your system\\n\\nTo install ImageMagick on macOS: brew install imagemagick\\nThen restart the server to enable PDF image conversion.").data

/-- Error `DocumentProcessor.extractFromScannedPDF` always throws. -/
def scannedPdfError : JsError :=
  { message := scannedPdfMessage, step := some .pdfImageConversionUnavailable }

/-- Message of the magic-header failure in `extractFromPDF`. -/
def invalidPdfMessage : List Char :=
  "File does not appear to be a valid PDF".data

/-- The character class of the regex literal `/[\\s\\n\\r\\t]/g` exactly as
it appears in the source: inside the class, `\\` matches a literal
backslash, so the class is the five characters backslash, `s`, `n`, `r`,
`t` — not whitespace. -/
def isMeaningfulStripChar (c : Char) : Bool :=
  c == '\\' || c == 's' || c == 'n' || c == 'r' || c == 't'

def isAlphanumericChar (c : Char) : Bool :=
  isAsciiAlpha c || isDigitChar c

/-- Lines 62–72 of `extractFromPDF` as written: the parsed, trimmed text is
accepted as the extraction result iff its length exceeds 20 and
`alphanumericChars / meaningfulChars > 0.3`, where `meaningfulChars` is the
length after deleting the characters of `isMeaningfulStripChar`.  The float
comparison is modelled exactly by `10 * a > 3 * m` (for `m = 0`, JS yields
`NaN > 0.3 = false` when `a = 0` and `Infinity > 0.3 = true` otherwise). -/
def acceptsParsedText (cleanText : List Char) : Bool :=
  if cleanText.length > 20 then
    let meaningfulChars := (cleanText.filter (fun c => !isMeaningfulStripChar c)).length
    let alphanumericChars := (cleanText.filter isAlphanumericChar).length
    if meaningfulChars == 0 then !(alphanumericChars == 0)
    else decide (10 * alphanumericChars > 3 * meaningfulChars)
  else false

/-- The meaningfulness heuristic in the spec's words, for comparison with
`acceptsParsedText`: trimmed length over 20 and the ratio of alphanumeric
characters to non-whitespace characters above 0.3. -/
def acceptsParsedTextSpecVersion (cleanText : List Char) : Bool :=
  if cleanText.length > 20 then
    let nonWs := (cleanText.filter (fun c => !isJsWs c)).length
    let alnum := (cleanText.filter isAlphanumericChar).length
    if nonWs == 0 then !(alnum == 0)
    else decide (10 * alnum > 3 * nonWs)
  else false

/-- The environment of one `extractFromPDF` call: the bytes
`fs.readFileSync` returns (ASCII prefix view) and the outcome `pdfParse`
would produce on them (`.text`, or the error it throws). -/
structure PdfEnv where
  fileBytes : List Char
  parseResult : Except JsError (List Char)

/-- Embeds `DocumentProcessor.extractFromPDF`.  The `try` body: 4-byte
magic-header check, parse, trim, meaningfulness heuristic, else
`extractFromScannedPDF` (which always throws `scannedPdfError`).  The
`catch`: an error already tagged `PDF_IMAGE_CONVERSION_UNAVAILABLE` is
rethrown as-is; any other error gets `processingStep` set to
`PDF_TEXT_EXTRACTION` and the OCR fallback `extractFromScannedPDF` is
attempted, whose `PDF_IMAGE_CONVERSION_UNAVAILABLE` error the inner catch
rethrows — so every failing path ends in `scannedPdfError`. -/
def extractFromPDF (env : PdfEnv) : Except JsError (List Char) :=
  let tryBody : Except JsError (List Char) :=
    if env.fileBytes.take 4 ≠ "%PDF".data then
      .error { message := invalidPdfMessage, step := none }
    else
      match env.parseResult with
      | .error e => .error e
      | .ok text =>
        let cleanText := jsTrim text
        if acceptsParsedText cleanText then .ok cleanText
        else .error scannedPdfError
  match tryBody with
  | .ok t => .ok t
  | .error e =>
    if e.step = some .pdfImageConversionUnavailable then .error e
    else .error scannedPdfError

/-! ### ChatService.processQuery -/

/-- Projection of a `FormData` document as selected by `processQuery`. -/
structure ChatDoc where
  originalFilename : List Char
  keyValuePairs : Option (List KVPair)
  extractedText : Option (List Char)
  confidence : ℚ
  processingMethod : List Char
  createdAt : Int

/-- One element of the `documentData` array handed to the AI provider. -/
structure PreparedDoc where
  filename : List Char
  keyValuePairs : List KVPair
  extractedText : Option (List Char)
  confidence : ℚ
  processingMethod : List Char
  createdAt : Int
deriving DecidableEq

/-- The `documents.map(doc => ...)` preparation step: `keyValuePairs || []`
and `extractedText ? extractedText.substring(0, 1000) : null` (an empty
extracted text is falsy, hence `null`). -/
def prepareDoc (d : ChatDoc) : PreparedDoc :=
  { filename := d.originalFilename
    keyValuePairs := d.keyValuePairs.getD []
    extractedText :=
      match d.extractedText with
      | some t => if t.isEmpty then none else some (t.take 1000)
      | none => none
    confidence := d.confidence
    processingMethod := d.processingMethod
    createdAt := d.createdAt }

/-- The `metadata` block of a successful chat response. -/
structure ChatMetadata where
  documentsUsed : Nat
  aiProvider : List Char
  processingTime : Int
deriving DecidableEq

/-- The object `processQuery` resolves with.  `rtype` is the source's
`type` field (a reserved word in Lean); an absent field is `none`. -/
structure ChatResult where
  content : List Char
  confidence : ℚ
  rtype : List Char
  metadata : Option ChatMetadata
  error : Option (List Char)
deriving DecidableEq

def noDocumentsMessage : List Char :=
  ("You haven\x27t uploaded any documents yet. Please upload some documents first to ask questions about them.").data

def chatErrorMessage : List Char :=
  ("I encountered an error while processing your request. Please try rephrasing your question or check if your documents contain the information you\x27re looking for.").data

/-- The fallback response built in `processQuery`'s catch block, for a
caught error with message `msg`. -/
def chatErrorResult (msg : List Char) : ChatResult :=
  { content := chatErrorMessage
    confidence := 1/10
    rtype := "error".data
    metadata := none
    error := some msg }

/-- Embeds `ChatService.processQuery`, with the two awaited collaborators as
explicit inputs: `loadRes` is the outcome of the `FormData.find(...)` chain
(the store already sorts, projects and limits to 20) and `chat` the outcome
`aiService.chatQuery` produces on the prepared documents.  `provider` is
`aiService.getSelectedProvider()`; `startTime` and `now` are the two
`Date.now()` readings. -/
def processQuery (loadRes : Except (List Char) (List ChatDoc))
    (chat : List PreparedDoc → Except (List Char) (List Char))
    (provider : List Char) (startTime now : Int) : ChatResult :=
  match loadRes with
  | .error e => chatErrorResult e
  | .ok documents =>
    if documents.length = 0 then
      { content := noDocumentsMessage
        confidence := 9/10
        rtype := "no_documents".data
        metadata := none
        error := none }
    else
      match chat (documents.map prepareDoc) with
      | .error e => chatErrorResult e
      | .ok aiResponse =>
        { content := aiResponse
          confidence := 9/10
          rtype := "ai_response".data
          metadata := some
            { documentsUsed := documents.length
              aiProvider := provider
              processingTime := now - startTime }
          error := none }

end DocAI


/-- Constructor-wise decidable equality for `Except` outcomes, used to
evaluate the embedded functions on concrete inputs. -/
instance {e a : Type} [DecidableEq e] [DecidableEq a] :
    DecidableEq (Except e a) := fun x y =>
  match x, y with
  | .error u, .error v =>
    if h : u = v then isTrue (by rw [h])
    else isFalse (fun hc => h (by cases hc; rfl))
  | .error _, .ok _ => isFalse (fun hc => Except.noConfusion hc)
  | .ok _, .error _ => isFalse (fun hc => Except.noConfusion hc)
  | .ok u, .ok v =>
    if h : u = v then isTrue (by rw [h])
    else isFalse (fun hc => h (by cases hc; rfl))

/-! ## Helper lemmas -/

namespace DocAI

theorem mem_dedupFirstAux {α : Type} [DecidableEq α] (l : List α) :
    ∀ (seen : List α) (x : α), x ∈ dedupFirstAux seen l ↔ x ∈ l ∧ x ∉ seen := by
  induction l with
  | nil => intro seen x; simp [dedupFirstAux]
  | cons a l ih =>
    intro seen x
    simp only [dedupFirstAux]
    by_cases h : a ∈ seen
    · rw [if_pos h, ih]
      simp only [List.mem_cons]
      by_cases hxa : x = a
      · subst hxa; tauto
      · tauto
    · rw [if_neg h]
      simp only [List.mem_cons, ih, List.mem_cons]
      by_cases hxa : x = a
      · subst hxa; tauto
      · tauto

theorem nodup_dedupFirstAux {α : Type} [DecidableEq α] (l : List α) :
    ∀ seen : List α, (dedupFirstAux seen l).Nodup := by
  induction l with
  | nil => intro seen; simp [dedupFirstAux]
  | cons a l ih =>
    intro seen
    simp only [dedupFirstAux]
    by_cases h : a ∈ seen
    · rw [if_pos h]; exact ih seen
    · rw [if_neg h]
      refine List.nodup_cons.mpr ⟨?_, ih (a :: seen)⟩
      intro hmem
      rcases (mem_dedupFirstAux l (a :: seen) a).mp hmem with ⟨_, hns⟩
      exact hns (List.mem_cons_self a seen)

theorem mem_dedupFirst {α : Type} [DecidableEq α] (l : List α) (x : α) :
    x ∈ dedupFirst l ↔ x ∈ l := by
  rw [dedupFirst, mem_dedupFirstAux]
  simp

theorem nodup_dedupFirst {α : Type} [DecidableEq α] (l : List α) :
    (dedupFirst l).Nodup :=
  nodup_dedupFirstAux l []

theorem toFinset_dedupFirst {α : Type} [DecidableEq α] (l : List α) :
    (dedupFirst l).toFinset = l.toFinset := by
  ext x
  simp [List.mem_toFinset, mem_dedupFirst]

theorem sum_filter_eq_length {α : Type} [DecidableEq α] (vs : List α) :
    ((dedupFirst vs).map
        (fun v => (vs.filter (fun x => decide (x = v))).length)).sum
      = vs.length := by
  rw [← List.sum_toFinset _ (nodup_dedupFirst vs), toFinset_dedupFirst]
  have hcount : ∀ v : α,
      (vs.filter (fun x => decide (x = v))).length = vs.count v := by
    intro v
    rw [List.count_eq_countP, List.countP_eq_length_filter]
    rfl
  simp_rw [hcount]
  exact List.sum_toFinset_count_eq_length vs

theorem length_filter_map_eq {α β : Type} (f : α → β) (p : β → Bool)
    (l : List α) :
    ((l.map f).filter p).length = (l.filter (fun a => p (f a))).length := by
  induction l with
  | nil => rfl
  | cons a l ih =>
    by_cases h : p (f a) <;> simp [List.filter_cons, h, ih]

end DocAI

namespace DocAI

/-- C7: For every store state, search key and limit, the `count` fields
of `searchByKeyExact`'s `valueFrequency` sum to its `totalResults`: each
returned index entry is counted under exactly one unique value, for every
value type representable in the index. -/
theorem searchByKeyExact_valueFrequency_sums_to_totalResults
    (store : List IndexEntry) (keyName : List Char) (limit : Nat) :
    (((searchByKeyExact store keyName limit).valueFrequency).map
        (fun f => f.count)).sum
      = (searchByKeyExact store keyName limit).totalResults := by
  set results := findByKeyExact store keyName limit with hres
  show (((exactSearchPost keyName results).valueFrequency).map
      (fun f => f.count)).sum = (exactSearchPost keyName results).totalResults
  simp only [exactSearchPost, List.map_map]
  have hcomp : ((fun f : ValueFrequencyEntry => f.count) ∘ (fun v =>
      let matching := results.filter (fun r => decide (r.value = v))
      ({ value := v, count := matching.length,
         filenames := dedupFirst (matching.map (·.originalFilename)) } :
        ValueFrequencyEntry)))
      = fun v => (results.filter (fun r => decide (r.value = v))).length := rfl
  rw [hcomp]
  have hswap : ∀ v : JSValue,
      (results.filter (fun r => decide (r.value = v))).length
        = ((results.map (fun r => r.value)).filter
            (fun x => decide (x = v))).length := by
    intro v
    rw [length_filter_map_eq]
  simp_rw [hswap]
  rw [sum_filter_eq_length]
  exact (List.length_map results _)

end DocAI

namespace DocAI

theorem keys_objSet (m : List (List Char × JSValue)) (k : List Char)
    (v : JSValue) :
    (objSet m k v).map Prod.fst =
      if k ∈ m.map Prod.fst then m.map Prod.fst else m.map Prod.fst ++ [k] := by
  unfold objSet
  have hany : (m.any (fun p => decide (p.1 = k))) = true ↔ k ∈ m.map Prod.fst := by
    rw [List.any_eq_true]
    constructor
    · rintro ⟨p, hp, hdec⟩
      exact (of_decide_eq_true hdec) ▸ List.mem_map_of_mem Prod.fst hp
    · intro hk
      rcases List.mem_map.mp hk with ⟨p, hp, hpk⟩
      exact ⟨p, hp, decide_eq_true hpk⟩
  by_cases h : k ∈ m.map Prod.fst
  · rw [if_pos (hany.mpr h), if_pos h, List.map_map]
    apply List.map_congr_left
    intro p hp
    by_cases hpk : p.1 = k
    · simp [hpk]
    · simp [hpk]
  · have hna : ¬ (m.any (fun p => decide (p.1 = k)) = true) :=
      fun hc => h (hany.mp hc)
    rw [if_neg hna, if_neg h, List.map_append]
    rfl

theorem toFinset_keys_objSet (m : List (List Char × JSValue)) (k : List Char)
    (v : JSValue) :
    ((objSet m k v).map Prod.fst).toFinset
      = insert k (m.map Prod.fst).toFinset := by
  rw [keys_objSet]
  by_cases h : k ∈ m.map Prod.fst
  · rw [if_pos h, Finset.insert_eq_self.mpr (List.mem_toFinset.mpr h)]
  · rw [if_neg h]
    ext x
    simp only [List.toFinset_append, List.toFinset_cons, List.toFinset_nil,
      Finset.mem_union, Finset.mem_insert, Finset.mem_singleton,
      Finset.not_mem_empty, or_false, List.mem_toFinset]
    tauto

theorem nodup_keys_objSet (m : List (List Char × JSValue)) (k : List Char)
    (v : JSValue) (h : (m.map Prod.fst).Nodup) :
    ((objSet m k v).map Prod.fst).Nodup := by
  rw [keys_objSet]
  by_cases hk : k ∈ m.map Prod.fst
  · rwa [if_pos hk]
  · rw [if_neg hk, List.nodup_append]
    refine ⟨h, List.nodup_singleton k, ?_⟩
    intro a ha hb
    rw [List.mem_singleton] at hb
    exact hk (hb ▸ ha)

theorem mem_objSet (m : List (List Char × JSValue)) (k : List Char)
    (v : JSValue) (kv : List Char × JSValue) (h : kv ∈ objSet m k v) :
    kv ∈ m ∨ kv = (k, v) := by
  unfold objSet at h
  split at h
  · rcases List.mem_map.mp h with ⟨p, hp, hupd⟩
    by_cases hpk : p.1 = k
    · right
      rw [if_pos hpk] at hupd
      exact hupd.symm
    · left
      rw [if_neg hpk] at hupd
      exact hupd ▸ hp
  · rcases List.mem_append.mp h with hm | hs
    · exact Or.inl hm
    · exact Or.inr (List.mem_singleton.mp hs)

theorem pairsToObject_keys_toFinset_go (kvs : List KVPair) :
    ∀ m : List (List Char × JSValue),
      ((kvs.foldl (fun m p => if keepPair p then objSet m p.key p.value else m)
          m).map Prod.fst).toFinset
        = (m.map Prod.fst).toFinset
            ∪ ((kvs.filter keepPair).map (·.key)).toFinset := by
  induction kvs with
  | nil => intro m; simp
  | cons p kvs ih =>
    intro m
    rw [List.foldl_cons, List.filter_cons]
    cases hkp : keepPair p with
    | false =>
      simp only [hkp, if_false, Bool.false_eq_true]
      exact ih m
    | true =>
      simp only [hkp, if_true]
      rw [ih, toFinset_keys_objSet, List.map_cons, List.toFinset_cons]
      ext x
      simp only [Finset.mem_union, Finset.mem_insert]
      tauto

theorem nodup_keys_pairsToObject_go (kvs : List KVPair) :
    ∀ m : List (List Char × JSValue), (m.map Prod.fst).Nodup →
      ((kvs.foldl (fun m p => if keepPair p then objSet m p.key p.value else m)
          m).map Prod.fst).Nodup := by
  induction kvs with
  | nil => intro m hm; exact hm
  | cons p kvs ih =>
    intro m hm
    rw [List.foldl_cons]
    cases hkp : keepPair p with
    | false =>
      simp only [hkp, if_false, Bool.false_eq_true]
      exact ih m hm
    | true =>
      simp only [hkp, if_true]
      exact ih _ (nodup_keys_objSet m p.key p.value hm)

theorem values_pairsToObject_go (kvs : List KVPair) :
    ∀ m : List (List Char × JSValue),
      (∀ kv ∈ m, isEmptyValue kv.2 = false) →
      ∀ kv ∈ kvs.foldl
          (fun m p => if keepPair p then objSet m p.key p.value else m) m,
        isEmptyValue kv.2 = false := by
  induction kvs with
  | nil => intro m hm kv hkv; exact hm kv hkv
  | cons p kvs ih =>
    intro m hm
    rw [List.foldl_cons]
    cases hkp : keepPair p with
    | false =>
      simp only [hkp, if_false, Bool.false_eq_true]
      exact ih m hm
    | true =>
      simp only [hkp, if_true]
      refine ih (objSet m p.key p.value) ?_
      intro kv hkv
      rcases mem_objSet m p.key p.value kv hkv with hmem | heq
      · exact hm kv hmem
      · have hval : isEmptyValue p.value = false := by
          have h2 := hkp
          simp only [keepPair, Bool.and_eq_true, Bool.not_eq_true'] at h2
          exact h2.2
        rw [heq]
        exact hval

theorem values_pairsToObject (kvs : List KVPair) :
    ∀ kv ∈ pairsToObject kvs, isEmptyValue kv.2 = false :=
  values_pairsToObject_go kvs [] (by intro kv h; simp at h)

end DocAI

namespace DocAI

/-- C1 (amended): `indexKeyValuePairs` on an ordered list of
`{key, value}` pairs never creates an `IndexEntry` for a null, undefined or
empty-string value, and the returned count equals the number of DISTINCT
keys among the pairs with truthy key and non-empty value (pairs sharing a
key collapse into one entry, the last value winning), not the number of
such pairs. -/
theorem indexKeyValuePairs_count_eq_card_distinct_keys
    (documentId filename originalFilename : List Char) (kvs : List KVPair)
    (extractedAt : Int) :
    indexKeyValuePairsCount documentId filename originalFilename kvs extractedAt
        = ((kvs.filter keepPair).map (·.key)).toFinset.card
      ∧ (indexKeyValuePairsArray documentId filename originalFilename kvs
          extractedAt).all (fun e => !isEmptyValue e.value) = true := by
  have hfilt : (pairsToObject kvs).filter (fun kv => !isEmptyValue kv.2)
      = pairsToObject kvs := by
    apply List.filter_eq_self.mpr
    intro kv hkv
    simp [values_pairsToObject kvs kv hkv]
  constructor
  · rw [indexKeyValuePairsCount, indexKeyValuePairsArray, hfilt, List.length_map]
    have hnd : ((pairsToObject kvs).map Prod.fst).Nodup :=
      nodup_keys_pairsToObject_go kvs [] (by simp)
    rw [← List.length_map (pairsToObject kvs) Prod.fst,
      ← List.toFinset_card_of_nodup hnd, pairsToObject,
      pairsToObject_keys_toFinset_go kvs []]
    simp
  · rw [List.all_eq_true]
    intro e he
    rw [indexKeyValuePairsArray, hfilt] at he
    rcases List.mem_map.mp he with ⟨kv, hkv, hbuild⟩
    have hv := values_pairsToObject kvs kv hkv
    rw [← hbuild]
    simp [hv]

/-- C1 fails as stated: two pairs sharing the key `a`, both with
non-empty string values, yield a count of 1, not one `IndexEntry` per
pair. -/
theorem indexKeyValuePairs_dup_key_counterexample :
    indexKeyValuePairsCount "d".data "f".data "o".data
        [⟨"a".data, .vstr "1".data⟩, ⟨"a".data, .vstr "2".data⟩] 0 = 1
      ∧ (([⟨"a".data, .vstr "1".data⟩, ⟨"a".data, .vstr "2".data⟩] :
            List KVPair).filter (fun p => !isEmptyValue p.value)).length = 2 := by
  decide

/-- C2 fails as stated: `normalizeKey` deletes punctuation without
inserting a separator, so `normalize("first-name!")` is `"firstname"`, not
`"first_name"`. -/
theorem normalizeKey_punctuation_counterexample :
    normalizeKey "first-name!".data = "firstname".data
      ∧ normalizeKey "first-name!".data ≠ "first_name".data := by
  decide

/-- C2 (amended): `normalizeKey` is the stated
lowercase-trim-strip-collapse composition and is case- and
whitespace-run-insensitive — `normalize("First Name")`,
`normalize("first name")` and `normalize("FIRST  NAME")` all equal
`"first_name"` — but it is not punctuation-insensitive in the claimed
sense: `normalize("first-name!") = "firstname" ≠ "first_name"`. -/
theorem normalizeKey_case_insensitive_behavior :
    normalizeKey "First Name".data = "first_name".data
      ∧ normalizeKey "first name".data = "first_name".data
      ∧ normalizeKey "FIRST  NAME".data = "first_name".data
      ∧ normalizeKey "first-name!".data = "firstname".data := by
  decide

end DocAI

namespace DocAI

theorem mem_insertDesc (e x : IndexEntry) (l : List IndexEntry) :
    x ∈ insertDesc e l ↔ x = e ∨ x ∈ l := by
  induction l with
  | nil => simp [insertDesc]
  | cons a l ih =>
    simp only [insertDesc]
    split
    · simp only [List.mem_cons]
    · simp only [List.mem_cons, ih]
      tauto

theorem mem_sortByExtractedAtDesc (x : IndexEntry) (l : List IndexEntry) :
    x ∈ sortByExtractedAtDesc l ↔ x ∈ l := by
  induction l with
  | nil => simp [sortByExtractedAtDesc]
  | cons a l ih =>
    simp only [sortByExtractedAtDesc, mem_insertDesc, ih, List.mem_cons]

theorem addToGroups_documentId (groups : List DocumentGroup) (r : IndexEntry)
    (g : DocumentGroup) (hg : g ∈ addToGroups groups r) :
    (∃ g0 ∈ groups, g.documentId = g0.documentId)
      ∨ g.documentId = r.documentId := by
  unfold addToGroups at hg
  split at hg
  · rcases List.mem_map.mp hg with ⟨g0, hg0, hupd⟩
    left
    refine ⟨g0, hg0, ?_⟩
    by_cases h : g0.documentId = r.documentId
    · rw [if_pos h] at hupd
      rw [← hupd]
    · rw [if_neg h] at hupd
      rw [← hupd]
  · rcases List.mem_append.mp hg with hm | hs
    · exact Or.inl ⟨g, hm, rfl⟩
    · right
      rw [List.mem_singleton] at hs
      rw [hs]

theorem groups_documentId_all (q : List Char → Bool) :
    ∀ (results : List IndexEntry) (gs : List DocumentGroup),
      (∀ r ∈ results, q r.documentId = true) →
      (∀ g ∈ gs, q g.documentId = true) →
      ∀ g ∈ results.foldl addToGroups gs, q g.documentId = true := by
  intro results
  induction results with
  | nil => intro gs _ hgs g hg; exact hgs g hg
  | cons r rs ih =>
    intro gs hres hgs g hg
    rw [List.foldl_cons] at hg
    refine ih (addToGroups gs r)
      (fun r' hr' => hres r' (List.mem_cons_of_mem _ hr')) ?_ g hg
    intro g' hg'
    rcases addToGroups_documentId gs r g' hg' with ⟨g0, hg0, heq⟩ | heq
    · rw [heq]; exact hgs g0 hg0
    · rw [heq]; exact hres r (List.mem_cons_self r rs)

/-- C8: For every store, document id, search key and limit: after
`removeDocumentIndex`, neither `searchByKeyExact` nor `searchByKeyPartial`
returns anything referencing the removed document, and the deleted count
equals the number of entries the document had — in particular removing a
document with no entries returns 0 rather than failing. -/
theorem removeDocumentIndex_cascades (store : List IndexEntry)
    (docId keyName : List Char) (limit : Nat) :
    ((searchByKeyExact (removeDocumentIndex store docId).1 keyName
          limit).results.all (fun e => !decide (e.documentId = docId))) = true
      ∧ ((searchByKeyPartial (removeDocumentIndex store docId).1 keyName
            limit).results.all
          (fun g => !decide (g.documentId = docId))) = true
      ∧ ((store.all (fun e => !decide (e.documentId = docId))) = true →
          (removeDocumentIndex store docId).2 = 0) := by
  have hstore : ∀ e ∈ (removeDocumentIndex store docId).1,
      (!decide (e.documentId = docId)) = true := by
    intro e he
    exact (List.mem_filter.mp he).2
  refine ⟨?_, ?_, ?_⟩
  · rw [List.all_eq_true]
    intro e he
    have h1 : e ∈ findByKeyExact (removeDocumentIndex store docId).1 keyName
        limit := he
    have h2 := List.mem_of_mem_take h1
    rw [mem_sortByExtractedAtDesc] at h2
    exact hstore e (List.mem_filter.mp h2).1
  · rw [List.all_eq_true]
    intro g hg
    refine groups_documentId_all (fun d => !decide (d = docId)) _ [] ?_
      (by intro g' hg'; simp at hg') g hg
    intro r hr
    have h2 := List.mem_of_mem_take hr
    rw [mem_sortByExtractedAtDesc] at h2
    exact hstore r (List.mem_filter.mp h2).1
  · intro hall
    rw [List.all_eq_true] at hall
    have : store.filter (fun e => decide (e.documentId = docId)) = [] := by
      rw [List.filter_eq_nil_iff]
      intro e he
      have := hall e he
      simp only [Bool.not_eq_true'] at this
      simp [this]
    show (store.filter (fun e => decide (e.documentId = docId))).length = 0
    rw [this]
    rfl

/-- Witness for C8: the empty store, where the removed count is 0. -/
theorem removeDocumentIndex_cascades_witness :
    ((searchByKeyExact (removeDocumentIndex [] "d1".data).1 "k".data
          10).results.all (fun e => !decide (e.documentId = "d1".data))) = true
      ∧ ((searchByKeyPartial (removeDocumentIndex [] "d1".data).1 "k".data
            10).results.all
          (fun g => !decide (g.documentId = "d1".data))) = true
      ∧ (removeDocumentIndex [] "d1".data).2 = 0 := by
  have h := removeDocumentIndex_cascades [] "d1".data "k".data 10
  exact ⟨h.1, h.2.1, h.2.2 (by decide)⟩

end DocAI

namespace DocAI

theorem tryCounts_spec (cs : List Char) (k : List Char → Option Nat)
    (base : Nat) :
    ∀ (extra t : Nat), tryCounts cs k base extra = some t →
      ∃ n m, t = n + m ∧ base ≤ n ∧ n ≤ base + extra ∧
        k (cs.drop n) = some m := by
  intro extra
  induction extra with
  | zero =>
    intro t ht
    simp only [tryCounts] at ht
    rcases Option.map_eq_some'.mp ht with ⟨m, hk, hm⟩
    exact ⟨base, m, by omega, Nat.le_refl base, by omega, hk⟩
  | succ e ih =>
    intro t ht
    simp only [tryCounts] at ht
    split at ht
    · rename_i m hk
      rcases Option.some.inj ht with rfl
      exact ⟨base + e + 1, m, by omega, by omega, by omega, hk⟩
    · rcases ih t ht with ⟨n, m, h1, h2, h3, h4⟩
      exact ⟨n, m, h1, h2, by omega, h4⟩

theorem matchPat_lower (pat : Pat) :
    ∀ (cs : List Char) (k : List Char → Option Nat) (c t : Nat),
      (∀ rest m, k rest = some m → c ≤ m) →
      matchPat pat cs k = some t → minLen pat + c ≤ t := by
  induction pat with
  | cls p lo hi =>
    intro cs k c t hk ht
    simp only [matchPat, matchRep] at ht
    split at ht
    · exact absurd ht (by simp)
    · rcases tryCounts_spec cs k lo _ t ht with ⟨n, m, rfl, hbase, _, hkn⟩
      have hm := hk _ _ hkn
      simp only [minLen]
      omega
  | seq a b iha ihb =>
    intro cs k c t hk ht
    simp only [matchPat] at ht
    have h := iha cs (fun rest => matchPat b rest k) (minLen b + c) t
      (fun rest m hm => ihb rest k c m hk hm) ht
    simp only [minLen]
    omega
  | alt a b iha ihb =>
    intro cs k c t hk ht
    simp only [matchPat] at ht
    split at ht
    · rename_i n hn
      rcases Option.some.inj ht with rfl
      have h := iha cs k c n hk hn
      simp only [minLen]
      omega
    · have h := ihb cs k c t hk ht
      simp only [minLen]
      omega

theorem matchPat_upper (pat : Pat) :
    ∀ (cs : List Char) (k : List Char → Option Nat) (t : Nat),
      (∀ rest m, k rest = some m → m ≤ rest.length) →
      matchPat pat cs k = some t → t ≤ cs.length := by
  induction pat with
  | cls p lo hi =>
    intro cs k t hk ht
    have hrun : (cs.takeWhile p).length ≤ cs.length :=
      (cs.takeWhile_sublist p).length_le
    cases hi with
    | none =>
      simp only [matchPat, matchRep] at ht
      split at ht
      · exact absurd ht (by simp)
      · rcases tryCounts_spec cs k lo _ t ht with ⟨n, m, rfl, _, hup, hkn⟩
        have hm := hk _ _ hkn
        rw [List.length_drop] at hm
        omega
    | some hbound =>
      simp only [matchPat, matchRep] at ht
      split at ht
      · exact absurd ht (by simp)
      · rcases tryCounts_spec cs k lo _ t ht with ⟨n, m, rfl, _, hup, hkn⟩
        have hm := hk _ _ hkn
        rw [List.length_drop] at hm
        have hmin : min hbound (cs.takeWhile p).length ≤ (cs.takeWhile p).length :=
          Nat.min_le_right _ _
        omega
  | seq a b iha ihb =>
    intro cs k t hk ht
    simp only [matchPat] at ht
    exact iha cs (fun rest => matchPat b rest k) t
      (fun rest m hm => ihb rest k m hk hm) ht
  | alt a b iha ihb =>
    intro cs k t hk ht
    simp only [matchPat] at ht
    split at ht
    · rename_i n hn
      rcases Option.some.inj ht with rfl
      exact iha cs k n hk hn
    · exact ihb cs k t hk ht

theorem matchAt_lower (pat : Pat) (cs : List Char) (t : Nat)
    (h : matchAt pat cs = some t) : minLen pat ≤ t := by
  have h2 := matchPat_lower pat cs (fun _ => some 0) 0 t
    (fun _ m hm => Nat.zero_le m) h
  omega

theorem matchAt_upper (pat : Pat) (cs : List Char) (t : Nat)
    (h : matchAt pat cs = some t) : t ≤ cs.length :=
  matchPat_upper pat cs (fun _ => some 0) t
    (fun rest m hm => by rcases Option.some.inj hm with rfl; exact Nat.zero_le _) h

theorem findMatch_ne_nil (pat : Pat) (hmin : 1 ≤ minLen pat) :
    ∀ (cs v : List Char), findMatch pat cs = some v → v ≠ [] := by
  intro cs
  induction cs with
  | nil =>
    intro v hv
    simp only [findMatch] at hv
    rcases Option.map_eq_some'.mp hv with ⟨t, ht, rfl⟩
    have h1 := matchAt_lower pat [] t ht
    have h2 := matchAt_upper pat [] t ht
    simp only [List.length_nil] at h2
    omega
  | cons c rest ih =>
    intro v hv
    simp only [findMatch] at hv
    split at hv
    · rename_i n hn
      rcases Option.some.inj hv with rfl
      have h1 := matchAt_lower pat (c :: rest) n hn
      cases n with
      | zero => omega
      | succ n0 => simp
    · exact ih v hv

theorem not_isEmpty_of_ne_nil {l : List Char} (h : l ≠ []) :
    (!l.isEmpty) = true := by
  cases l with
  | nil => exact absurd rfl h
  | cons a l => rfl

theorem isEmptyValue_vstr (v : List Char) :
    isEmptyValue (.vstr v) = v.isEmpty := by
  cases v with
  | nil => rfl
  | cons a l => simp [isEmptyValue]

end DocAI

namespace DocAI

theorem lineCandidates_nonempty (line : List Char) :
    ∀ p ∈ lineCandidates line, (!p.key.isEmpty && !p.value.isEmpty) = true := by
  intro p hp
  have hregex : ∀ (keyName : List Char) (pat : Pat), 1 ≤ minLen pat →
      (!keyName.isEmpty) = true →
      p ∈ (match findMatch pat line with
            | some v => [(⟨keyName, v⟩ : MockPair)]
            | none => []) →
      (!p.key.isEmpty && !p.value.isEmpty) = true := by
    intro keyName pat hmin hkey hmem
    split at hmem
    · rename_i v hv
      rcases List.mem_singleton.mp hmem with rfl
      have hvne := findMatch_ne_nil pat hmin line v hv
      simp only [Bool.and_eq_true]
      exact ⟨hkey, not_isEmpty_of_ne_nil hvne⟩
    · simp at hmem
  simp only [lineCandidates, List.mem_append] at hp
  rcases hp with ((((hp | hp) | hp) | hp) | hp)
  · split at hp
    · split at hp
      · simp at hp
      · rename_i k valueParts
        split at hp
        · rename_i hcond
          rcases List.mem_singleton.mp hp with rfl
          exact hcond
        · simp at hp
    · simp at hp
  · exact hregex "Email".data emailPat (by decide) (by decide) hp
  · exact hregex "Phone".data phonePat (by decide) (by decide) hp
  · exact hregex "Date".data datePat (by decide) (by decide) hp
  · exact hregex "Amount".data amountPat (by decide) (by decide) hp

end DocAI

namespace DocAI

/-- C9: Every pair returned by `MockProvider.extractKeyValuePairs` has
a non-empty key and a non-empty string value — equivalently, every returned
pair passes the indexing engine's emptiness filter (`keepPair`), so the
mock's output never contains a pair `indexKeyValuePairs` would skip. -/
theorem mockExtract_pairs_nonempty (text : List Char) :
    ((mockExtractKeyValuePairs text).all
        (fun p => !p.key.isEmpty && !p.value.isEmpty)) = true
      ∧ ((mockExtractKeyValuePairs text).all
        (fun p => keepPair ⟨p.key, .vstr p.value⟩)) = true := by
  have hmem : ∀ p ∈ mockExtractKeyValuePairs text,
      (!p.key.isEmpty && !p.value.isEmpty) = true := by
    intro p hp
    have h1 := List.mem_of_mem_take hp
    rw [mem_dedupFirst] at h1
    rcases List.mem_flatMap.mp h1 with ⟨line, _, hline⟩
    exact lineCandidates_nonempty line p hline
  constructor
  · rw [List.all_eq_true]
    exact hmem
  · rw [List.all_eq_true]
    intro p hp
    have h := hmem p hp
    simp only [Bool.and_eq_true] at h
    simp only [keepPair, isEmptyValue_vstr, Bool.and_eq_true]
    exact h

/-- C6 (amended): The mock extractor's output length equals
`min 20 (number of DISTINCT raw (key,value) candidates)`: it is exactly 20
when the input yields more than 20 distinct candidate pairs and never
exceeds 20 — but an input with more than 20 raw candidates that collapse to
fewer than 20 distinct pairs returns fewer than 20. -/
theorem mockExtract_cap (text : List Char) :
    (mockExtractKeyValuePairs text).length
        = min 20 ((rawCandidates text).toFinset.card)
      ∧ (mockExtractKeyValuePairs text).length ≤ 20 := by
  have hlen : (dedupFirst (rawCandidates text)).length
      = (rawCandidates text).toFinset.card := by
    rw [← toFinset_dedupFirst, List.toFinset_card_of_nodup (nodup_dedupFirst _)]
  constructor
  · rw [mockExtractKeyValuePairs, List.length_take, hlen]
  · rw [mockExtractKeyValuePairs, List.length_take]
    exact Nat.min_le_left _ _

/-- C6 fails as stated: 21 identical lines `a: b` give 21 raw candidate
pairs (more than 20), yet the returned list has length 1, not 20, because
deduplication runs before the cap. -/
theorem mockExtract_cap_counterexample :
    (rawCandidates (joinWith '\n' (List.replicate 21 "a: b".data))).length = 21
      ∧ (mockExtractKeyValuePairs
          (joinWith '\n' (List.replicate 21 "a: b".data))).length = 1 := by
  decide

end DocAI

namespace DocAI

set_option maxRecDepth 100000 in
/-- C3 fails as stated: for a file declared PDF whose first four bytes
are not `%PDF`, the invalid-format error is thrown before parsing, but the
function's own catch block then attempts the OCR fallback, and what reaches
the caller is the scanned-PDF error (`PDF_IMAGE_CONVERSION_UNAVAILABLE`
remediation message), not the invalid-format failure. -/
theorem extractFromPDF_badMagic_counterexample :
    extractFromPDF
        { fileBytes := "NOPE".data,
          parseResult := .ok "some parsed text".data }
        = .error scannedPdfError
      ∧ scannedPdfError.message ≠ invalidPdfMessage
      ∧ scannedPdfError.step = some .pdfImageConversionUnavailable := by
  decide

/-- C3 (amended): For every file declared PDF whose first four bytes
are not `%PDF`, the magic-header check fails before the parse result is
consulted (the outcome is identical for every `parseResult`), but the
thrown error is caught and the OCR fallback is attempted; the error that
reaches the caller is `scannedPdfError`, not the invalid-format error. -/
theorem extractFromPDF_badMagic (bytes : List Char)
    (parseResult : Except JsError (List Char))
    (h : bytes.take 4 ≠ "%PDF".data) :
    extractFromPDF { fileBytes := bytes, parseResult := parseResult }
        = .error scannedPdfError := by
  simp only [extractFromPDF]
  rw [if_pos h]
  rfl

/-- Witness for C3 (amended) at a concrete non-PDF byte prefix. -/
theorem extractFromPDF_badMagic_witness :
    "XXXX".data.take 4 ≠ "%PDF".data
      ∧ extractFromPDF { fileBytes := "XXXX".data, parseResult := .ok [] }
            = .error scannedPdfError :=
  ⟨by decide, extractFromPDF_badMagic "XXXX".data (.ok []) (by decide)⟩

set_option maxRecDepth 100000 in
/-- C5 (code bug): The source's meaningfulness regex is written
`/[\\s\\n\\r\\t]/g`, which strips literal backslash/`s`/`n`/`r`/`t`
characters instead of whitespace.  On the parsed text
`ssssss!!!!!!!!!!!!!!!` (21 chars; 6 alphanumeric of 21 non-whitespace,
ratio 6/21 ≤ 0.3) the claim requires the OCR fallback, but the code
computes 6/15 > 0.3 and accepts the text as the extraction result. -/
theorem acceptsParsedText_strip_bug :
    acceptsParsedText "ssssss!!!!!!!!!!!!!!!".data = true
      ∧ acceptsParsedTextSpecVersion "ssssss!!!!!!!!!!!!!!!".data = false
      ∧ extractFromPDF
          { fileBytes := "%PDF-1.4 stuff".data,
            parseResult := .ok "ssssss!!!!!!!!!!!!!!!".data }
          = .ok "ssssss!!!!!!!!!!!!!!!".data := by
  decide

/-- C4: If the document load or the AI gateway call fails,
`processQuery` resolves normally with the fixed apologetic content, type
`error`, confidence 0.1 and the raw error message embedded in the result. -/
theorem processQuery_error_fallback
    (loadRes : Except (List Char) (List ChatDoc))
    (chat : List PreparedDoc → Except (List Char) (List Char))
    (provider : List Char) (startTime now : Int) (failure : List Char)
    (h : loadRes = .error failure
        ∨ ∃ docs, loadRes = .ok docs ∧ docs ≠ []
            ∧ chat (docs.map prepareDoc) = .error failure) :
    processQuery loadRes chat provider startTime now
        = { content := chatErrorMessage, confidence := 1/10,
            rtype := "error".data, metadata := none,
            error := some failure } := by
  rcases h with rfl | ⟨docs, rfl, hne, hchat⟩
  · rfl
  · simp only [processQuery]
    rw [if_neg (fun hh => hne (List.length_eq_zero.mp hh)), hchat]
    rfl

/-- Witness for C4: a forced load failure. -/
theorem processQuery_error_fallback_witness :
    processQuery (.error "boom".data) (fun _ => .ok []) "mock".data 0 0
        = { content := chatErrorMessage, confidence := 1/10,
            rtype := "error".data, metadata := none,
            error := some "boom".data } :=
  processQuery_error_fallback (.error "boom".data) (fun _ => .ok [])
    "mock".data 0 0 "boom".data (Or.inl rfl)

/-- C10: A `processQuery` result carries `metadata` iff its type is
`ai_response`, carries an `error` field iff its type is `error`, and its
type is always one of `no_documents`, `ai_response`, `error`. -/
theorem processQuery_metadata_error_fields
    (loadRes : Except (List Char) (List ChatDoc))
    (chat : List PreparedDoc → Except (List Char) (List Char))
    (provider : List Char) (startTime now : Int) :
    ((processQuery loadRes chat provider startTime now).metadata.isSome
        = decide ((processQuery loadRes chat provider startTime now).rtype
            = "ai_response".data))
      ∧ ((processQuery loadRes chat provider startTime now).error.isSome
        = decide ((processQuery loadRes chat provider startTime now).rtype
            = "error".data))
      ∧ ((processQuery loadRes chat provider startTime now).rtype
            = "no_documents".data
          ∨ (processQuery loadRes chat provider startTime now).rtype
            = "ai_response".data
          ∨ (processQuery loadRes chat provider startTime now).rtype
            = "error".data) := by
  rcases loadRes with e | docs
  · exact ⟨rfl, rfl, Or.inr (Or.inr rfl)⟩
  · by_cases hlen : docs.length = 0
    · have hq : processQuery (.ok docs) chat provider startTime now
          = { content := noDocumentsMessage, confidence := 9/10,
              rtype := "no_documents".data, metadata := none,
              error := none } := by
        simp only [processQuery, if_pos hlen]
      rw [hq]
      exact ⟨rfl, rfl, Or.inl rfl⟩
    · rcases hchat : chat (docs.map prepareDoc) with e2 | resp
      · have hq : processQuery (.ok docs) chat provider startTime now
            = chatErrorResult e2 := by
          simp only [processQuery, if_neg hlen, hchat]
        rw [hq]
        exact ⟨rfl, rfl, Or.inr (Or.inr rfl)⟩
      · have hq : processQuery (.ok docs) chat provider startTime now
            = { content := resp, confidence := 9/10,
                rtype := "ai_response".data,
                metadata := some
                  { documentsUsed := docs.length, aiProvider := provider,
                    processingTime := now - startTime },
                error := none } := by
          simp only [processQuery, if_neg hlen, hchat]
        rw [hq]
        exact ⟨rfl, rfl, Or.inr (Or.inl rfl)⟩

end DocAI
